import Mathlib

/-!
Verification development for the TDS Virtual TA retrieval-augmented pipeline.

The Python sources are shallowly embedded as follows.

* Python strings are `String` / `List Char` (Python indexes by code point,
  which matches `List Char`).
* Floating-point numbers are idealised as exact arithmetic: embedding vectors
  are `List ℚ` (every float is a rational), and the real-valued cosine
  similarity is the reference function `cosineSim : List ℚ → List ℚ → ℝ`.
  The comparisons the code performs on similarity floats
  (`similarity >= 0.4` and the sort key) are embedded as exact decidable
  tests on the pair (dot product, product of squared norms) that determines
  the similarity; the theorems `simPass_iff_cosine` and the `simVal`
  lemmas prove these tests equivalent to the corresponding comparisons of
  the real-valued similarity, so the executable pipeline and the
  real-valued specification agree.
* Remote calls (embedding provider, generative model) are oracles passed in
  as parameters; SQLite tables are lists of rows in iteration order.
* The per-character digit data of the runtime's Unicode tables (behind
  `str.isdigit()` and `int()`) is a parameter `DigitTable` of the
  retrieval pipeline: the theorems hold for every table, hence for the
  runtime's actual one, and concrete witnesses use a small sample table.
* Python `while` loops and the `re.finditer` scanner are embedded with an
  explicit fuel argument, so that termination of the loop is itself a
  provable statement and all definitions compute by `rfl`/`decide`.
* A `try/except` block around a row is embedded by an `Option` that is
  `none` exactly when the Python body would raise (in particular
  `url.rstrip` on a NULL url raises `AttributeError`, so the row is
  skipped).
-/

namespace TdsVta

/-! ### Python string primitives -/

/-- Python whitespace class (ASCII fragment of str.strip and the regex
class backslash-s): space, tab, newline, carriage return, vertical tab,
form feed. -/
def isPySpace (c : Char) : Bool :=
  c = ' ' || c = '\t' || c = '\n' || c = '\r' || c = '\x0b' || c = '\x0c'

/-- Drop the longest suffix whose characters satisfy `p`. -/
def dropEndWhile (p : Char → Bool) (l : List Char) : List Char :=
  (l.reverse.dropWhile p).reverse

/-- Python `str.strip()` on a character list. -/
def trimChars (l : List Char) : List Char :=
  dropEndWhile isPySpace (l.dropWhile isPySpace)

/-- Python `str.strip()` on a string. -/
def pyStrip (s : String) : String := ⟨trimChars s.data⟩

/-- Python `str.strip('"')`: remove all leading and trailing double quotes. -/
def stripQuotes (s : String) : String :=
  ⟨dropEndWhile (· = '"') (s.data.dropWhile (· = '"'))⟩

/-- Python `str.strip("# ")`: remove all leading and trailing `#` and
space characters. -/
def stripHashSpace (s : String) : String :=
  ⟨dropEndWhile (fun c => c = '#' || c = ' ') (s.data.dropWhile (fun c => c = '#' || c = ' '))⟩

/-- Does the character list `s` start with the literal `pat`? -/
def startsList : List Char → List Char → Bool
  | [], _ => true
  | _ :: _, [] => false
  | p :: ps, c :: cs => p == c && startsList ps cs

/-- Python `s.startswith(pat)`. -/
def pyStartsWith (s pat : String) : Bool := startsList pat.data s.data

/-- Python `s.split(sep)` for a one-character separator, on character
lists.  Splitting the empty string gives one empty segment, as in Python. -/
def splitChar (sep : Char) : List Char → List (List Char)
  | [] => [[]]
  | c :: cs =>
    match splitChar sep cs with
    | [] => [[]]
    | seg :: rest => if c == sep then [] :: seg :: rest else (c :: seg) :: rest

/-- Python `s.split(":", 1)[1]`: everything after the first colon (the
caller guarantees a colon is present; without one Python would raise
`IndexError`, and this returns the empty list). -/
def afterFirstColon (l : List Char) : List Char :=
  (l.dropWhile (fun c => c != ':')).drop 1

/-! ### chunk_text (base_creation_test.py, lines 25-33)

    def chunk_text(text, chunk_size=CHUNK_SIZE, overlap=CHUNK_OVERLAP):
        chunks, start = [], 0
        while start < len(text):
            end = start + chunk_size
            chunk = text[start:end].strip()
            if chunk:
                chunks.append(chunk)
            start += chunk_size - overlap
        return chunks

The while loop is embedded with explicit fuel: one unit of fuel per
iteration, `none` when fuel runs out before the loop exits.  The loop
genuinely diverges in Python when `chunk_size - overlap <= 0` and the text
is non-empty, so termination (adequacy of some finite fuel) is a theorem,
not a by-product of the embedding. -/

def CHUNK_SIZE : ℕ := 750
def CHUNK_OVERLAP : ℕ := 70

/-- The loop of `chunk_text`, with fuel.  `start` is the loop variable;
`text[start:start+chunkSize]` is `(text.drop start).take chunkSize`. -/
def chunkTextGo (text : List Char) (chunkSize overlap : ℕ) : ℕ → ℕ → Option (List (List Char))
  | 0, start => if start < text.length then none else some []
  | fuel + 1, start =>
    if start < text.length then
      let chunk := trimChars ((text.drop start).take chunkSize)
      match chunkTextGo text chunkSize overlap fuel (start + (chunkSize - overlap)) with
      | none => none
      | some rest => some (if chunk.isEmpty then rest else chunk :: rest)
    else
      some []

/-- `chunk_text` itself (the Python defaults are `CHUNK_SIZE` and
`CHUNK_OVERLAP`): fuel `text.length` suffices whenever
`overlap < chunkSize` (proved below). -/
def chunkText (text : List Char) (chunkSize : ℕ) (overlap : ℕ) :
    List (List Char) :=
  (chunkTextGo text chunkSize overlap text.length 0).getD []

/-- Number of loop iterations of `chunk_text` on a text of length `n` with
stride `s`: the least `k` with `k * s ≥ n`, i.e. the ceiling of `n / s`. -/
def numWindows (n s : ℕ) : ℕ := (n + s - 1) / s

/-! ### embed (base_creation_test.py, lines 35-37)

    def embed(texts):
        response = client.embeddings.create(model="text-embedding-3-small", input=texts)
        return [item.embedding for item in response.data]

The remote call is an oracle passed as a parameter.  A failing HTTP call
raises in the OpenAI client; that exception is the `except`-side of the
oracle (`ProviderError`).  Note that the code performs no validation of the
returned vector count: whatever `response.data` holds is mapped over and
returned. -/

/-- One element of `response.data` of the embeddings endpoint. -/
structure EmbeddingItem where
  embedding : List ℚ
deriving DecidableEq

/-- Failure of a remote provider call (a raised exception in the source). -/
inductive ProviderError where
  | requestFailed (msg : String)
deriving DecidableEq

/-- `embed` from base_creation_test.py, parameterised by the provider
oracle. -/
def embed (provider : List String → Except ProviderError (List EmbeddingItem))
    (texts : List String) : Except ProviderError (List (List ℚ)) :=
  match provider texts with
  | Except.error e => Except.error e
  | Except.ok data => Except.ok (data.map EmbeddingItem.embedding)

/-! ### process_course_md (base_creation_test.py, lines 99-156)

The document is modelled as its list of lines (the result of Python
`content.splitlines()`).  Embedding-provider calls and uuid generation do
not affect which texts are chunked or which url is attached, so a produced
row is modelled by its section title, url metadata and chunk text. -/

/-- Python `line.split(":", 1)[1].strip().strip('"')` — the value of a
front-matter field line.  The caller has checked that the stripped line
starts with `original_url:`, so the line contains a colon; on a line
without a colon (unreachable) this returns the empty string where Python
would raise `IndexError`. -/
def extractUrlValue (line : String) : String :=
  stripQuotes (pyStrip ⟨afterFirstColon line.data⟩)

/-- The front-matter scanning loop: starting from line index 1, record the
value of every `original_url:` line, and stop at the first line that
strips to `---`, returning the remaining lines.  Returns `none` for the
remainder when no closing delimiter is found (in the source, `lines` is
then left unchanged). -/
def fmScan : Option String → List String → Option String × Option (List String)
  | url, [] => (url, none)
  | url, l :: ls =>
    if pyStartsWith (pyStrip l) "original_url:" then
      fmScan (some (extractUrlValue l)) ls
    else if pyStrip l = "---" then (url, some ls)
    else fmScan url ls

/-- Front-matter handling of `process_course_md`: the url metadata and the
lines that remain for chunking. -/
def frontMatter (lines : List String) : Option String × List String :=
  match lines with
  | [] => (none, [])
  | l0 :: rest =>
    if pyStrip l0 = "---" then
      match fmScan none rest with
      | (url, some body) => (url, body)
      | (url, none) => (url, l0 :: rest)
    else (none, l0 :: rest)

/-- A row of the `course_chunks` table, restricted to the fields that the
chunking logic determines (chunk id and source file are opaque). -/
structure CourseRow where
  sectionTitle : String
  url : Option String
  text : List Char
deriving DecidableEq

/-- Python `line.strip("# ").strip()` — the title of a heading line. -/
def headingTitle (line : String) : String := pyStrip (stripHashSpace line)

/-- Flushing a buffer: `chunk_text(buffer)` with the default window
parameters, one inserted row per chunk. -/
def flushBuffer (title : String) (url : Option String) (buf : List Char) : List CourseRow :=
  (chunkText buf CHUNK_SIZE CHUNK_OVERLAP).map (fun ch => ⟨title, url, ch⟩)

/-- The section loop of `process_course_md`: headings flush the buffer
(only when it strips non-empty — a whitespace-only buffer is carried over,
exactly as in the source) and open a new section title; other lines are
appended to the buffer with a newline; the final buffer is flushed at
end of document. -/
def sectionLoop (url : Option String) (title : String) (buf : List Char) :
    List String → List CourseRow
  | [] => if (trimChars buf).isEmpty then [] else flushBuffer title url buf
  | l :: ls =>
    if pyStartsWith (pyStrip l) "#" then
      if (trimChars buf).isEmpty then
        sectionLoop url (headingTitle l) buf ls
      else
        flushBuffer title url buf ++ sectionLoop url (headingTitle l) [] ls
    else
      sectionLoop url title (buf ++ l.data ++ ['\n']) ls

/-- `process_course_md`: rows produced for a document given as its lines. -/
def courseRows (lines : List String) : List CourseRow :=
  sectionLoop (frontMatter lines).1 "" [] (frontMatter lines).2

/-- The net effect of the front-matter loop on the `url` variable over a
block of lines none of which closes the block: every `original_url:` line
overwrites `url`. -/
def scanUrl (u : Option String) : List String → Option String
  | [] => u
  | l :: ls =>
    if pyStartsWith (pyStrip l) "original_url:" then
      scanUrl (some (extractUrlValue l)) ls
    else scanUrl u ls

/-! ### retrieve_similar_chunks (virtual_ta_api.py, lines 35-36 and 65-95)

    SIMILARITY_THRESHOLD = 0.4
    MAX_RESULTS = 50

    def cosine_similarity(a, b):
        a, b = np.array(a), np.array(b)
        return np.dot(a, b) / (np.linalg.norm(a) * np.linalg.norm(b))

    def retrieve_similar_chunks(question: str, top_k=MAX_RESULTS):
        question_embedding = get_embedding(question)
        all_chunks = []
        for table in ["forum_chunks", "course_chunks"]:
            cursor = conn.execute(f"SELECT url, text, embedding FROM {table}")
            for url, text, emb_json in cursor.fetchall():
                try:
                    emb = json.loads(emb_json)
                    if len(emb) != len(question_embedding):
                        continue
                    similarity = cosine_similarity(question_embedding, emb)
                    if similarity >= SIMILARITY_THRESHOLD:
                        all_chunks.append({... , "similarity": similarity,
                            "post_number": int(url.rstrip("/").split("/")[-1])
                                if url.rstrip("/").split("/")[-1].isdigit() else 0})
                except Exception as e:
                    logger.warning(f"Skipping row -> {e}")
        return sorted(all_chunks, key=lambda x: (-x["similarity"], -x["post_number"]))[:top_k]

The float `similarity` of a result is determined by the exact pair
`(dot q e, normSq q * normSq e)`: its idealised real value is
`simNum / sqrt simDenSq`.  Both comparisons the code makes on similarity
floats — the threshold test and the sort key — are embedded as exact
rational tests on this pair, and proved equivalent to the corresponding
real-valued comparisons (`simPass_iff_cosine`, `simSq_lt_iff`).

Two statements in the body can raise inside the `try`, and the `except`
clause then skips the row:
* `url.rstrip("/")` raises `AttributeError` when the url column is NULL,
  so a NULL-url row whose similarity passes the threshold contributes no
  result;
* `int(seg)` raises `ValueError` when the trailing segment passes
  `seg.isdigit()` (a Unicode digit-property test) but contains a character
  that `int()` does not accept as a decimal digit (for example a
  superscript digit), and such a row is likewise dropped.
The per-character digit data of the runtime's Unicode tables is
abstracted as the `DigitTable` parameter; the retrieval theorems are
proved for every table, hence in particular for the runtime's actual one.
The embedding json is taken as already parsed (`emb : List ℚ`); a row
whose blob fails `json.loads` is likewise skipped by the handler and is
not modelled. -/

def SIMILARITY_THRESHOLD : ℚ := 2 / 5
def MAX_RESULTS : ℕ := 50

/-- `np.dot` on equal-length vectors (the caller checks the lengths). -/
def dot (a b : List ℚ) : ℚ := (List.zipWith (· * ·) a b).sum

/-- Squared Euclidean norm: `np.linalg.norm(a) ** 2`. -/
def normSq (a : List ℚ) : ℚ := dot a a

/-- Reference definition of the float the code computes: cosine similarity
`dot(a, b) / (norm(a) * norm(b))` as a real number. -/
noncomputable def cosineSim (a b : List ℚ) : ℝ :=
  ((dot a b : ℚ) : ℝ) / (Real.sqrt ((normSq a : ℚ) : ℝ) * Real.sqrt ((normSq b : ℚ) : ℝ))

/-- Exact embedding of the float test `similarity >= SIMILARITY_THRESHOLD`
on the pair `(d, np) = (dot q e, normSq q * normSq e)`: the similarity
`d / sqrt np` is at least the positive threshold `t` iff `d` is positive
and `t^2 * np ≤ d^2`.  Theorem `simPass_iff_cosine` proves this equivalence
with the real-valued `cosineSim` (including the `np = 0` corner, where
numpy yields `nan` and `nan >= 0.4` is false). -/
def simPass (d np : ℚ) : Bool :=
  decide (0 < d ∧ SIMILARITY_THRESHOLD ^ 2 * np ≤ d ^ 2)

/-- The per-character digit data of the Python runtime's Unicode tables,
abstracted: `digit c` is the per-character property behind
`str.isdigit()` (Numeric_Type Digit or Decimal), and `decVal c` is
`some v` exactly when `int()` accepts `c` as a decimal digit of value `v`
(the Numeric_Type=Decimal characters), `none` otherwise.  In the real
tables every decimal digit also has the digit property, but nothing below
depends on that: the retrieval theorems are proved for an arbitrary
table, hence hold for the runtime's actual one.  Concrete witnesses use
the small table `sampleDigits`. -/
structure DigitTable where
  digit : Char → Bool
  decVal : Char → Option ℕ

/-- Python `seg.isdigit()`: non-empty and every character has the digit
property. -/
def pyIsDigit (U : DigitTable) (s : List Char) : Bool := !s.isEmpty && s.all U.digit

/-- Python `int(seg)` on a string of digit-property characters: the
base-10 value when every character is an `int()`-acceptable decimal
digit, and `none` — a raised `ValueError` — otherwise (for example when
the string contains a superscript digit). -/
def pyIntDigits (U : DigitTable) (s : List Char) : Option ℕ :=
  if s.isEmpty then none
  else
    s.foldl
      (fun acc c =>
        match acc, U.decVal c with
        | some a, some v => some (10 * a + v)
        | _, _ => none)
      (some 0)

/-- `url.rstrip("/").split("/")[-1]`: the trailing path segment of a url
(`rstrip("/")` removes all trailing slashes; `split` always returns at
least one segment, so `[-1]` is its last element). -/
def trailingSeg (url : String) : List Char :=
  (splitChar '/' (dropEndWhile (· = '/') url.data)).getLastD []

/-- The attempted tie-break key of a result:
`int(url.rstrip("/").split("/")[-1]) if ...isdigit() else 0`.
`none` means the `int()` call raised `ValueError`, which the row-level
exception handler turns into a skipped row. -/
def trailingKey (U : DigitTable) (url : String) : Option ℕ :=
  if pyIsDigit U (trailingSeg url) then pyIntDigits U (trailingSeg url) else some 0

/-- A small concrete digit table, agreeing with the runtime's Unicode
data on the characters it mentions: the ASCII digits and the fullwidth
digits are decimal (accepted by `int()`), the superscript two has the
digit property but is not decimal (so `int()` raises on it), and every
other character is a non-digit. -/
def sampleDigits : DigitTable where
  digit c := decide (('0' ≤ c ∧ c ≤ '9') ∨ ('０' ≤ c ∧ c ≤ '９') ∨ c = '²')
  decVal c :=
    if '0' ≤ c ∧ c ≤ '9' then some (c.toNat - '0'.toNat)
    else if '０' ≤ c ∧ c ≤ '９' then some (c.toNat - '０'.toNat)
    else none

/-- A row of either chunk table as read by the retrieval query
(`SELECT url, text, embedding`); `url` is `none` for a NULL column. -/
structure Row where
  url : Option String
  text : String
  emb : List ℚ
deriving DecidableEq

/-- One element of `all_chunks`: the dict the code appends.  The float
`similarity` is represented exactly by `simNum` (the dot product with the
query) and `simDenSq` (the product of the squared norms); its value is
`Result.simVal`. -/
structure Result where
  source : String
  text : String
  url : String
  simNum : ℚ
  simDenSq : ℚ
  post : ℕ
deriving DecidableEq

/-- The idealised float similarity of a result. -/
noncomputable def Result.simVal (r : Result) : ℝ :=
  (r.simNum : ℝ) / Real.sqrt ((r.simDenSq : ℚ) : ℝ)

/-- The body of the row loop of `retrieve_similar_chunks` for one row:
`none` when the row is skipped (dimension mismatch via `continue`, a
below-threshold similarity, the caught `AttributeError` on a NULL url, or
the caught `ValueError` from `int()` on a digit-property segment that is
not decimal), `some` the appended result otherwise.  `source` is
`table.replace("_chunks", "")`. -/
def rowResult (U : DigitTable) (source : String) (q : List ℚ) (row : Row) : Option Result :=
  if row.emb.length ≠ q.length then none
  else
    let d := dot q row.emb
    let np := normSq q * normSq row.emb
    if simPass d np then
      match row.url with
      | none => none
      | some u =>
        match trailingKey U u with
        | none => none
        | some k => some ⟨source, row.text, u, d, np, k⟩
    else none

/-- The two chunk tables, each in SELECT iteration order. -/
structure Store where
  forum : List Row
  course : List Row
deriving DecidableEq

/-- `all_chunks` after the scan of both tables, in append order: the
`forum_chunks` table is scanned before `course_chunks`, and
`table.replace("_chunks", "")` gives the source tags. -/
def retrieveAll (U : DigitTable) (store : Store) (q : List ℚ) : List Result :=
  store.forum.filterMap (rowResult U "forum" q) ++
    store.course.filterMap (rowResult U "course" q)

/-- Squared similarity of a result, `simNum ^ 2 / simDenSq`.  For every
result the pipeline produces, `simNum` and `simDenSq` are positive and
the similarity is its square root, so comparing squared similarities is
exactly comparing the float similarities. -/
def simSq (r : Result) : ℚ := r.simNum ^ 2 / r.simDenSq

/-- The sort order `key=lambda x: (-x["similarity"], -x["post_number"])`
of Python `sorted` as a relation: `x` may be placed before `y` iff the key
tuple of `x` is at most that of `y`, i.e. similarity descending, then
post number descending. -/
def sortRel (x y : Result) : Prop :=
  simSq y < simSq x ∨ (simSq y = simSq x ∧ y.post ≤ x.post)

instance (x y : Result) : Decidable (sortRel x y) := by
  unfold sortRel; infer_instance

/-- `sortRel` as the Bool comparator handed to the stable sort. -/
def resultLE (x y : Result) : Bool := decide (sortRel x y)

/-- `sorted(all_chunks, key=...)`: Python sorted is a stable sort, embedded
as the stable `List.mergeSort`. -/
def retrieveSorted (U : DigitTable) (store : Store) (q : List ℚ) : List Result :=
  (retrieveAll U store q).mergeSort resultLE

/-- `retrieve_similar_chunks`, parameterised by the query embedding the
code obtains from `get_embedding(question)`; the Python default for
`topK` is `MAX_RESULTS`. -/
def retrieve (U : DigitTable) (store : Store) (q : List ℚ) (topK : ℕ) : List Result :=
  (retrieveSorted U store q).take topK

/-! ### query_virtual_ta (virtual_ta_api.py, lines 154-191)

    chunks = retrieve_similar_chunks(req.question)
    if not chunks:
        return QueryResponse(answer="I couldn't find relevant content.", links=[])
    llm_output = await generate_llm_answer(req.question, chunks, extracted_text)
    if "Sources:" in llm_output:
        answer_part, sources_part = llm_output.split("Sources:", 1)
    else:
        answer_part, sources_part = llm_output, ""
    links = []
    for match in re.finditer(r"URL:\s*(\S+),\s*Text:\s*(.*)", sources_part):
        url, text = match.groups()
        links.append(Link(url=url.strip(), text=text.strip()))
    return QueryResponse(answer=answer_part.strip(), links=links)

The regex scan is embedded exactly for this one pattern.  Backtracking
analysis (the character classes of adjacent pieces are complements, so
greedy runs are forced): after the literal `URL:`, the whitespace run and
then the maximal non-whitespace run are fixed; the only choice point is
where the group `(\S+)` ends, which must be a position of a comma inside
that run, tried from the rightmost comma leftwards; after the comma the
whitespace run, the literal `Text:`, the next whitespace run and the
line-bounded group `(.*)` are again all forced.  `re.finditer` tries each
start position left to right and resumes after the end of a match. -/

def urlMarker : List Char := "URL:".data
def textMarker : List Char := "Text:".data
def sourcesMarker : List Char := "Sources:".data

/-- Attempt the tail of the pattern (`,\s*Text:\s*(.*)`) with the group
`(\S+)` ending just before position `p` of the maximal non-whitespace run
`run` (so `s1`, the text from the start of the run, has the comma at
offset `p`).  Returns (group 1, group 2, rest of the subject). -/
def tryComma (s1 run : List Char) (p : ℕ) : Option (List Char × List Char × List Char) :=
  let s2 := s1.drop (p + 1)
  let s3 := s2.dropWhile isPySpace
  if startsList textMarker s3 then
    let s4 := (s3.drop textMarker.length).dropWhile isPySpace
    let g2 := s4.takeWhile (fun c => c != '\n')
    some (run.take p, g2, s4.drop g2.length)
  else none

/-- First `some` value of `f` along a list. -/
def firstSome {α β : Type} (f : α → Option β) : List α → Option β
  | [] => none
  | a :: as =>
    match f a with
    | some b => some b
    | none => firstSome f as

/-- Match of `URL:\s*(\S+),\s*Text:\s*(.*)` anchored at the start of `s`:
`some (group1, group2, rest)` on success.  The comma ending group 1 is
searched from the rightmost candidate leftwards (greedy `(\S+)` with
backtracking). -/
def matchFrom (s : List Char) : Option (List Char × List Char × List Char) :=
  if startsList urlMarker s then
    let s1 := (s.drop urlMarker.length).dropWhile isPySpace
    let run := s1.takeWhile (fun c => !isPySpace c)
    firstSome (tryComma s1 run)
      (((List.range run.length).filter
        (fun p => decide (0 < p) && decide (run.get? p = some ','))).reverse)
  else none

/-- The `re.finditer` loop with fuel: try a match at the current position;
on success emit it and resume after the match, otherwise advance one
character.  A match consumes at least the four characters of `URL:`, so
fuel `s.length` suffices (lemma `findAllGo_fuel`). -/
def findAllGo : ℕ → List Char → List (List Char × List Char)
  | 0, _ => []
  | fuel + 1, s =>
    match matchFrom s with
    | some (u, t, rest) => (u, t) :: findAllGo fuel rest
    | none =>
      match s with
      | [] => []
      | _ :: cs => findAllGo fuel cs

/-- All matches of the citation pattern in `s`, in textual order. -/
def findAll (s : List Char) : List (List Char × List Char) := findAllGo s.length s

/-- The pydantic `Link` model. -/
structure Link where
  url : String
  text : String
deriving DecidableEq

/-- The pydantic `QueryResponse` model. -/
structure QueryResponse where
  answer : String
  links : List Link
deriving DecidableEq

/-- `Link(url=url.strip(), text=text.strip())` for one regex match. -/
def mkLink (p : List Char × List Char) : Link := ⟨⟨trimChars p.1⟩, ⟨trimChars p.2⟩⟩

/-- The links extracted from the sources portion. -/
def parseLinks (s : List Char) : List Link := (findAll s).map mkLink

/-- Python `llm_output.split("Sources:", 1)` guarded by
`"Sources:" in llm_output`: `some (before, after)` at the first occurrence
of the marker, `none` when the marker is absent. -/
def splitMarker : List Char → Option (List Char × List Char)
  | [] => none
  | c :: cs =>
    if startsList sourcesMarker (c :: cs) then
      some ([], (c :: cs).drop sourcesMarker.length)
    else
      (splitMarker cs).map (fun p => (c :: p.1, p.2))

/-- Parsing of the synthesized response into answer and citation list. -/
def parseResponse (s : String) : QueryResponse :=
  match splitMarker s.data with
  | some (ans, src) => ⟨⟨trimChars ans⟩, parseLinks src⟩
  | none => ⟨⟨trimChars s.data⟩, parseLinks []⟩

/-- Failure of the generative-model call (the raised `HTTPException`). -/
inductive SynthesisError where
  | httpError (status : ℕ) (detail : String)
deriving DecidableEq

/-- The fixed refusal answer for queries with zero retrieved grounding. -/
def REFUSAL : String := "I couldn't find relevant content."

/-- The query endpoint after request decoding: retrieval, the zero-chunk
early return, at most one generative-model call (its outcome is the oracle
`llm`), and response parsing.  The second component counts how many times
the generative model is invoked. -/
def queryVirtualTA (U : DigitTable) (store : Store) (qEmb : List ℚ)
    (llm : Except SynthesisError String) : Except SynthesisError QueryResponse × ℕ :=
  let chunks := retrieve U store qEmb MAX_RESULTS
  if chunks.isEmpty then
    (Except.ok ⟨REFUSAL, []⟩, 0)
  else
    match llm with
    | Except.error e => (Except.error e, 1)
    | Except.ok out => (Except.ok (parseResponse out), 1)

/-- Modelled from the spec: the per-line reading of citation parsing
("each line of the sources portion matching the pattern URL: ..., Text: ...
yields one Citation ... non-matching lines are silently omitted").  The
sources portion is split into lines and each line is matched on its own,
so a pattern can never span a line break.  This specification-side
definition is compared against the implementation's scan of the whole
portion in the C4 theorems. -/
def lineCitations (s : List Char) : List Link :=
  (s.splitOn '\n').flatMap (fun line => (findAll line).map mkLink)

/-! ## Helper lemmas -/

theorem length_dropWhile_le (p : Char → Bool) (l : List Char) :
    (l.dropWhile p).length ≤ l.length :=
  (List.dropWhile_sublist p).length_le

theorem length_dropEndWhile_le (p : Char → Bool) (l : List Char) :
    (dropEndWhile p l).length ≤ l.length := by
  unfold dropEndWhile
  rw [List.length_reverse]
  calc (l.reverse.dropWhile p).length ≤ l.reverse.length := length_dropWhile_le p l.reverse
    _ = l.length := List.length_reverse l

theorem trimChars_length_le (l : List Char) : (trimChars l).length ≤ l.length :=
  (length_dropEndWhile_le _ _).trans (length_dropWhile_le _ _)

theorem dropWhile_dropWhile (p : Char → Bool) (l : List Char) :
    (l.dropWhile p).dropWhile p = l.dropWhile p := by
  induction l with
  | nil => rfl
  | cons c cs ih =>
    rw [List.dropWhile_cons]
    by_cases hc : p c
    · simp [hc, ih]
    · simp [List.dropWhile_cons, hc]

theorem dropWhile_eq_self_of_append {p : Char → Bool} {a t : List Char}
    (h : (a ++ t).dropWhile p = a ++ t) : a.dropWhile p = a := by
  cases a with
  | nil => rfl
  | cons c a' =>
    rw [List.cons_append, List.dropWhile_cons] at h
    by_cases hc : p c
    · exfalso
      rw [if_pos hc] at h
      have hle := length_dropWhile_le p (a' ++ t)
      rw [h] at hle
      simp only [List.length_cons] at hle
      omega
    · rw [List.dropWhile_cons, if_neg hc]

theorem dropEndWhile_eq_append (p : Char → Bool) (l : List Char) :
    ∃ t, l = dropEndWhile p l ++ t := by
  refine ⟨(l.reverse.takeWhile p).reverse, ?_⟩
  unfold dropEndWhile
  rw [← List.reverse_append, List.takeWhile_append_dropWhile, List.reverse_reverse]

theorem dropEndWhile_dropEndWhile (p : Char → Bool) (l : List Char) :
    dropEndWhile p (dropEndWhile p l) = dropEndWhile p l := by
  unfold dropEndWhile
  rw [List.reverse_reverse, dropWhile_dropWhile]

theorem trimChars_idem (l : List Char) : trimChars (trimChars l) = trimChars l := by
  unfold trimChars
  set m := l.dropWhile isPySpace with hm
  have hmm : m.dropWhile isPySpace = m := dropWhile_dropWhile isPySpace l
  obtain ⟨t, ht⟩ := dropEndWhile_eq_append isPySpace m
  have hself : (dropEndWhile isPySpace m).dropWhile isPySpace = dropEndWhile isPySpace m :=
    dropWhile_eq_self_of_append (by rw [← ht]; exact hmm)
  rw [hself, dropEndWhile_dropEndWhile]

/-! ## C6 and C7: the segmenter -/

theorem numWindows_succ (m s : ℕ) (hs : 0 < s) (hm : 0 < m) :
    numWindows m s = numWindows (m - s) s + 1 := by
  unfold numWindows
  by_cases hms : m ≤ s
  · have h1 : m + s - 1 = (m - 1) + s := by omega
    have h2 : m - s = 0 := by omega
    rw [h1, Nat.add_div_right _ hs, h2]
    have h3 : (m - 1) / s = 0 := Nat.div_eq_of_lt (by omega)
    have h4 : (0 + s - 1) / s = 0 := Nat.div_eq_of_lt (by omega)
    rw [h3, h4]
  · have h1 : m + s - 1 = ((m - s) + s - 1) + s := by omega
    rw [h1, Nat.add_div_right _ hs]

/-- Master characterisation of the `chunk_text` loop: with enough fuel the
loop from position `start` returns exactly the non-empty trimmed windows
at positions `start, start + stride, start + 2 * stride, ...`. -/
theorem chunkTextGo_eq (text : List Char) (L O : ℕ) (h : O < L) :
    ∀ fuel start, text.length - start ≤ fuel * (L - O) →
      chunkTextGo text L O fuel start =
        some (((List.range (numWindows (text.length - start) (L - O))).map
          (fun i => trimChars ((text.drop (start + i * (L - O))).take L))).filter
            (fun c => !c.isEmpty)) := by
  intro fuel
  induction fuel with
  | zero =>
    intro start hle
    have hstart : ¬ start < text.length := by omega
    have h0 : text.length - start = 0 := by omega
    rw [h0]
    have hnw : numWindows 0 (L - O) = 0 := Nat.div_eq_of_lt (by omega)
    rw [hnw]
    simp [chunkTextGo, hstart]
  | succ fuel ih =>
    intro start hle
    by_cases hstart : start < text.length
    · have hle' : text.length - (start + (L - O)) ≤ fuel * (L - O) := by
        rw [Nat.succ_mul] at hle; omega
      have hrec := ih (start + (L - O)) hle'
      have hnw : numWindows (text.length - start) (L - O) =
          numWindows (text.length - (start + (L - O))) (L - O) + 1 := by
        have hstep := numWindows_succ (text.length - start) (L - O)
          (by omega) (by omega)
        have harg : text.length - start - (L - O) = text.length - (start + (L - O)) := by
          omega
        rw [hstep, harg]
      have hmap : ((List.range (numWindows (text.length - (start + (L - O))) (L - O))).map
            (Nat.succ ·)).map
              (fun i => trimChars ((text.drop (start + i * (L - O))).take L)) =
          (List.range (numWindows (text.length - (start + (L - O))) (L - O))).map
            (fun i => trimChars ((text.drop ((start + (L - O)) + i * (L - O))).take L)) := by
        rw [List.map_map]
        refine List.map_congr_left fun i _ => ?_
        have harg : start + (Nat.succ i) * (L - O) = (start + (L - O)) + i * (L - O) := by
          rw [Nat.succ_mul]; omega
        simp only [Function.comp]
        rw [harg]
      simp only [chunkTextGo, if_pos hstart, hrec]
      rw [hnw, List.range_succ_eq_map, List.map_cons, hmap]
      simp only [Nat.zero_mul, Nat.add_zero, List.filter_cons]
      by_cases hch : (trimChars ((text.drop start).take L)).isEmpty
      · simp [hch]
      · simp [hch]
    · have h0 : text.length - start = 0 := by omega
      rw [h0]
      have hnw : numWindows 0 (L - O) = 0 := Nat.div_eq_of_lt (by omega)
      rw [hnw]
      simp [chunkTextGo, hstart]

/-- C7: under the precondition `O < L` (strictly positive stride), the
sliding-window loop of the segmenter terminates on every input: fuel equal
to the text length already suffices, and every at-least-as-large fuel
produces the same final chunk list. -/
theorem claim_C7_chunk_loop_terminates (L O : ℕ) (h : O < L) (text : List Char) :
    ∃ out, chunkTextGo text L O text.length 0 = some out ∧
      ∀ fuel, text.length ≤ fuel → chunkTextGo text L O fuel 0 = some out := by
  have hbase : text.length - 0 ≤ text.length * (L - O) := by
    have h1 : text.length * 1 ≤ text.length * (L - O) :=
      Nat.mul_le_mul_left _ (by omega)
    omega
  refine ⟨_, chunkTextGo_eq text L O h text.length 0 hbase, fun fuel hf => ?_⟩
  have hfuel : text.length - 0 ≤ fuel * (L - O) := by
    have h1 : fuel * 1 ≤ fuel * (L - O) := Nat.mul_le_mul_left _ (by omega)
    omega
  rw [chunkTextGo_eq text L O h fuel 0 hfuel]

/-- Witness for C7 at a concrete input. -/
theorem claim_C7_witness :
    (0 : ℕ) < 2 ∧
    ∃ out, chunkTextGo "ab cd".data 2 0 ("ab cd".data.length) 0 = some out ∧
      ∀ fuel, "ab cd".data.length ≤ fuel → chunkTextGo "ab cd".data 2 0 fuel 0 = some out :=
  ⟨by decide, claim_C7_chunk_loop_terminates 2 0 (by decide) "ab cd".data⟩

/-- C6: for `O < L` the segmenter emits exactly the non-empty trimmed
windows `T[i*(L-O) : i*(L-O)+L]` in order of ascending start position, and
every emitted chunk is non-empty, of length at most `L`, and already
trimmed (hence non-empty after trimming). -/
theorem claim_C6_segmenter_windows (text : List Char) (L O : ℕ) (h : O < L) :
    chunkText text L O =
      ((List.range (numWindows text.length (L - O))).map
        (fun i => trimChars ((text.drop (i * (L - O))).take L))).filter
          (fun c => !c.isEmpty) ∧
    ∀ c ∈ chunkText text L O, c ≠ [] ∧ c.length ≤ L ∧ trimChars c = c := by
  have hbase : text.length - 0 ≤ text.length * (L - O) := by
    have h1 : text.length * 1 ≤ text.length * (L - O) :=
      Nat.mul_le_mul_left _ (by omega)
    omega
  have hmaster := chunkTextGo_eq text L O h text.length 0 hbase
  have heq : chunkText text L O =
      ((List.range (numWindows text.length (L - O))).map
        (fun i => trimChars ((text.drop (i * (L - O))).take L))).filter
          (fun c => !c.isEmpty) := by
    unfold chunkText
    rw [hmaster]
    simp
  refine ⟨heq, fun c hc => ?_⟩
  rw [heq] at hc
  rw [List.mem_filter] at hc
  obtain ⟨hmem, hne⟩ := hc
  rw [List.mem_map] at hmem
  obtain ⟨i, _, rfl⟩ := hmem
  refine ⟨by simpa using hne, ?_, trimChars_idem _⟩
  calc (trimChars ((text.drop (i * (L - O))).take L)).length
      ≤ ((text.drop (i * (L - O))).take L).length := trimChars_length_le _
    _ ≤ L := List.length_take_le _ _

/-! ## Retrieval-engine lemmas -/

theorem dot_nil (b : List ℚ) : dot [] b = 0 := by simp [dot]

theorem dot_cons (x y : ℚ) (a b : List ℚ) :
    dot (x :: a) (y :: b) = x * y + dot a b := by simp [dot]

theorem normSq_nonneg (a : List ℚ) : 0 ≤ normSq a := by
  induction a with
  | nil => simp [normSq, dot]
  | cons x a ih =>
    have hx : normSq (x :: a) = x * x + normSq a := by simp [normSq, dot]
    have h2 := mul_self_nonneg x
    rw [hx]
    linarith

theorem dot_eq_zero_left {a : List ℚ} (h : normSq a = 0) : ∀ b, dot a b = 0 := by
  induction a with
  | nil => intro b; simp [dot]
  | cons x a ih =>
    have hx2 : x * x + normSq a = 0 := by
      have : normSq (x :: a) = x * x + normSq a := by simp [normSq, dot]
      rw [← this]; exact h
    have hxn := mul_self_nonneg x
    have han := normSq_nonneg a
    have hx0 : x = 0 := mul_self_eq_zero.mp (by linarith)
    have ha0 : normSq a = 0 := by linarith
    intro b
    cases b with
    | nil => simp [dot]
    | cons y b =>
      rw [dot_cons, ih ha0 b, hx0]
      ring

theorem dot_comm (a : List ℚ) : ∀ b, dot a b = dot b a := by
  induction a with
  | nil => intro b; cases b <;> simp [dot]
  | cons x a ih =>
    intro b
    cases b with
    | nil => simp [dot]
    | cons y b => rw [dot_cons, dot_cons, ih b, mul_comm]

theorem dot_eq_zero_right {b : List ℚ} (h : normSq b = 0) (a : List ℚ) : dot a b = 0 := by
  rw [dot_comm]; exact dot_eq_zero_left h a

/-- Formula for `cosineSim` with the single square root of the product of
the squared norms (the denominator pair the pipeline carries). -/
theorem cosineSim_eq_sqrt (q e : List ℚ) :
    cosineSim q e = ((dot q e : ℚ) : ℝ) / Real.sqrt ((normSq q * normSq e : ℚ) : ℝ) := by
  unfold cosineSim
  rw [Rat.cast_mul, Real.sqrt_mul (by exact_mod_cast normSq_nonneg q)]

/-- The executable threshold test of the pipeline decides exactly the
real-valued comparison `cosineSim >= 0.4` the source performs on floats
(for a zero denominator numpy produces `nan`, and `nan >= 0.4` is false,
matching the left side being false there as well). -/
theorem simPass_iff_cosine (q e : List ℚ) :
    simPass (dot q e) (normSq q * normSq e) = true ↔
      ((SIMILARITY_THRESHOLD : ℚ) : ℝ) ≤ cosineSim q e := by
  rw [cosineSim_eq_sqrt]
  unfold simPass SIMILARITY_THRESHOLD
  rw [decide_eq_true_iff]
  set d : ℚ := dot q e with hd
  set n : ℚ := normSq q * normSq e with hn
  have hn0 : 0 ≤ n := mul_nonneg (normSq_nonneg q) (normSq_nonneg e)
  by_cases hnz : n = 0
  · have hd0 : d = 0 := by
      rcases mul_eq_zero.mp hnz with hq | he
      · exact dot_eq_zero_left hq e
      · exact dot_eq_zero_right he q
    constructor
    · rintro ⟨hpos, -⟩
      rw [hd0] at hpos
      exact absurd hpos (lt_irrefl 0)
    · intro hcos
      exfalso
      rw [hd0] at hcos
      norm_num at hcos
  · have hnpos : (0 : ℚ) < n := lt_of_le_of_ne hn0 (Ne.symm hnz)
    have hnposR : (0 : ℝ) < ((n : ℚ) : ℝ) := by exact_mod_cast hnpos
    by_cases hdpos : 0 < d
    · have hdposR : (0 : ℝ) < ((d : ℚ) : ℝ) := by exact_mod_cast hdpos
      have hval : ((d : ℚ) : ℝ) / Real.sqrt ((n : ℚ) : ℝ) =
          Real.sqrt (((d : ℚ) : ℝ) ^ 2 / ((n : ℚ) : ℝ)) := by
        rw [Real.sqrt_div (sq_nonneg _), Real.sqrt_sq hdposR.le]
      rw [hval]
      rw [Real.le_sqrt (by norm_num) (by positivity)]
      rw [le_div_iff₀ hnposR]
      constructor
      · rintro ⟨-, hle⟩
        exact_mod_cast hle
      · intro hle
        refine ⟨hdpos, ?_⟩
        exact_mod_cast hle
    · have hdleR : ((d : ℚ) : ℝ) ≤ 0 := by
        have hq : d ≤ 0 := le_of_not_lt hdpos
        exact_mod_cast hq
      constructor
      · rintro ⟨hpos, -⟩; exact absurd hpos hdpos
      · intro hcos
        exfalso
        have hq1 : ((d : ℚ) : ℝ) / Real.sqrt ((n : ℚ) : ℝ) ≤ 0 :=
          div_nonpos_iff.mpr (Or.inr ⟨hdleR, Real.sqrt_nonneg _⟩)
        have hq2 : (0 : ℝ) < ((2 / 5 : ℚ) : ℝ) := by norm_num
        linarith

/-- For a non-negative numerator, the idealised similarity value is the
square root of the squared similarity the comparator uses. -/
theorem simVal_eq_sqrt {r : Result} (hd : 0 ≤ r.simNum) :
    r.simVal = Real.sqrt ((simSq r : ℚ) : ℝ) := by
  unfold Result.simVal simSq
  rw [Rat.cast_div, Rat.cast_pow, Real.sqrt_div (sq_nonneg _),
    Real.sqrt_sq (by exact_mod_cast hd)]

/-- For results with positive numerator and denominator (all results the
pipeline produces), comparing squared similarities is comparing the float
similarities. -/
theorem simSq_lt_iff {a b : Result} (ha : 0 < a.simNum ∧ 0 < a.simDenSq)
    (hb : 0 < b.simNum ∧ 0 < b.simDenSq) :
    simSq a < simSq b ↔ a.simVal < b.simVal := by
  rw [simVal_eq_sqrt ha.1.le, simVal_eq_sqrt hb.1.le]
  have hsa : (0 : ℝ) ≤ ((simSq a : ℚ) : ℝ) := by
    have h1 : (0 : ℚ) ≤ simSq a := div_nonneg (sq_nonneg _) ha.2.le
    exact_mod_cast h1
  rw [Real.sqrt_lt_sqrt_iff hsa]
  exact ⟨fun h => by exact_mod_cast h, fun h => by exact_mod_cast h⟩

/-- Equality version of `simSq_lt_iff`. -/
theorem simSq_eq_iff {a b : Result} (ha : 0 < a.simNum ∧ 0 < a.simDenSq)
    (hb : 0 < b.simNum ∧ 0 < b.simDenSq) :
    simSq a = simSq b ↔ a.simVal = b.simVal := by
  rw [simVal_eq_sqrt ha.1.le, simVal_eq_sqrt hb.1.le]
  have hsa : (0 : ℝ) ≤ ((simSq a : ℚ) : ℝ) := by
    have h1 : (0 : ℚ) ≤ simSq a := div_nonneg (sq_nonneg _) ha.2.le
    exact_mod_cast h1
  have hsb : (0 : ℝ) ≤ ((simSq b : ℚ) : ℝ) := by
    have h1 : (0 : ℚ) ≤ simSq b := div_nonneg (sq_nonneg _) hb.2.le
    exact_mod_cast h1
  rw [Real.sqrt_inj hsa hsb]
  exact ⟨fun h => by exact_mod_cast h, fun h => by exact_mod_cast h⟩

/-- Everything `rowResult` guarantees about a produced result: the
similarity pair is positive and is the pair for the query and the row's
embedding, the url was present and is copied, the tie-break key
computation on that url succeeded and gave the result's key, and the
dimensions matched. -/
theorem rowResult_some {U : DigitTable} {source : String} {q : List ℚ} {row : Row}
    {r : Result} (h : rowResult U source q row = some r) :
    0 < r.simNum ∧ 0 < r.simDenSq ∧
    r.simNum = dot q row.emb ∧ r.simDenSq = normSq q * normSq row.emb ∧
    row.url = some r.url ∧ trailingKey U r.url = some r.post ∧
    r.source = source ∧ r.text = row.text ∧ row.emb.length = q.length := by
  unfold rowResult at h
  by_cases hlen : row.emb.length ≠ q.length
  · rw [if_pos hlen] at h; exact absurd h (by simp)
  · rw [if_neg hlen] at h
    simp only at h
    by_cases hpass : simPass (dot q row.emb) (normSq q * normSq row.emb)
    · rw [if_pos hpass] at h
      have hcond := decide_eq_true_iff.mp hpass
      obtain ⟨hdpos, hsq⟩ := hcond
      cases hurl : row.url with
      | none => rw [hurl] at h; exact absurd h (by simp)
      | some u =>
        rw [hurl] at h
        dsimp only at h
        cases hkey : trailingKey U u with
        | none => rw [hkey] at h; exact absurd h (by simp)
        | some k =>
          rw [hkey] at h
          dsimp only at h
          have hr := Option.some.inj h
          subst hr
          have hnp : 0 < normSq q * normSq row.emb := by
            have hnn : 0 ≤ normSq q * normSq row.emb :=
              mul_nonneg (normSq_nonneg q) (normSq_nonneg row.emb)
            rcases lt_or_eq_of_le hnn with hlt | heq
            · exact hlt
            · exfalso
              have hd0 : dot q row.emb = 0 := by
                rcases mul_eq_zero.mp heq.symm with hq | he
                · exact dot_eq_zero_left hq row.emb
                · exact dot_eq_zero_right he q
              rw [hd0] at hdpos
              exact lt_irrefl 0 hdpos
          exact ⟨hdpos, hnp, rfl, rfl, rfl, hkey, rfl, rfl, not_not.mp hlen⟩
    · rw [if_neg hpass] at h
      exact absurd h (by simp)

/-- Every result of the pre-sort scan has a positive similarity pair. -/
theorem mem_retrieveAll_pos {U : DigitTable} {store : Store} {q : List ℚ} {r : Result}
    (h : r ∈ retrieveAll U store q) : 0 < r.simNum ∧ 0 < r.simDenSq := by
  unfold retrieveAll at h
  rw [List.mem_append] at h
  rcases h with h | h <;>
  · rw [List.mem_filterMap] at h
    obtain ⟨row, -, hrow⟩ := h
    exact ⟨(rowResult_some hrow).1, (rowResult_some hrow).2.1⟩

/-- Transitivity of the sort-key order. -/
theorem sortRel_trans (a b c : Result) : sortRel a b → sortRel b c → sortRel a c := by
  unfold sortRel
  rintro (h1 | ⟨h1, h1p⟩) (h2 | ⟨h2, h2p⟩)
  · exact Or.inl (lt_trans h2 h1)
  · exact Or.inl (by rw [h2]; exact h1)
  · exact Or.inl (by rw [← h1]; exact h2)
  · exact Or.inr ⟨h2.trans h1, le_trans h2p h1p⟩

/-- Totality of the sort-key order. -/
theorem sortRel_total (a b : Result) : sortRel a b ∨ sortRel b a := by
  unfold sortRel
  rcases lt_trichotomy (simSq a) (simSq b) with h | h | h
  · exact Or.inr (Or.inl h)
  · rcases Nat.le_total b.post a.post with hp | hp
    · exact Or.inl (Or.inr ⟨h.symm, hp⟩)
    · exact Or.inr (Or.inr ⟨h, hp⟩)
  · exact Or.inl (Or.inl h)

theorem resultLE_trans : ∀ (a b c : Result), resultLE a b → resultLE b c → resultLE a c := by
  intro a b c h1 h2
  exact decide_eq_true (sortRel_trans a b c (of_decide_eq_true h1) (of_decide_eq_true h2))

theorem resultLE_total : ∀ (a b : Result), resultLE a b || resultLE b a := by
  intro a b
  rcases sortRel_total a b with h | h
  · exact Bool.or_eq_true_iff.mpr (Or.inl (decide_eq_true h))
  · exact Bool.or_eq_true_iff.mpr (Or.inr (decide_eq_true h))

/-! Evaluation lemmas for concrete one-dimensional stores (rational
arithmetic does not reduce in the kernel, so these are established with
`norm_num` and used by the concrete witnesses). -/

theorem dot_single (x y : ℚ) : dot [x] [y] = x * y := by simp [dot]

theorem normSq_single (x : ℚ) : normSq [x] = x * x := by simp [normSq, dot]

theorem simPass_one_one : simPass 1 1 = true :=
  decide_eq_true ⟨by norm_num, by norm_num [SIMILARITY_THRESHOLD]⟩

theorem rowResult_eval_some (U : DigitTable) (source text u : String) (k : ℕ)
    (hk : trailingKey U u = some k) :
    rowResult U source [(1 : ℚ)] ⟨some u, text, [(1 : ℚ)]⟩ =
      some ⟨source, text, u, 1, 1, k⟩ := by
  simp only [rowResult, dot_single, normSq_single]
  norm_num [simPass_one_one, hk]

theorem rowResult_eval_none (U : DigitTable) (source text : String) :
    rowResult U source [(1 : ℚ)] ⟨none, text, [(1 : ℚ)]⟩ = none := by
  simp only [rowResult, dot_single, normSq_single]
  norm_num [simPass_one_one]

theorem rowResult_eval_badseg (U : DigitTable) (source text u : String)
    (hk : trailingKey U u = none) :
    rowResult U source [(1 : ℚ)] ⟨some u, text, [(1 : ℚ)]⟩ = none := by
  simp only [rowResult, dot_single, normSq_single]
  norm_num [simPass_one_one, hk]

/-- Shared evaluation: the cosine similarity of the one-dimensional unit
vector with itself is 1. -/
theorem cosineSim_single_one : cosineSim [(1 : ℚ)] [(1 : ℚ)] = 1 := by
  unfold cosineSim
  have h1 : dot [(1 : ℚ)] [(1 : ℚ)] = 1 := by simp [dot]
  have h2 : normSq [(1 : ℚ)] = 1 := by simp [normSq, dot]
  rw [h1, h2]
  norm_num [Real.sqrt_one]

/-- Counterexample to C1 as stated: two stored course chunks whose
dimensionality matches the query and whose cosine similarity is 1 (at
least the 0.4 threshold) do not appear in the pre-truncation output — one
because its url column is NULL (`url.rstrip` raises `AttributeError`),
one because its trailing url segment `²` has the digit property but is
rejected by `int()` (`ValueError`); both exceptions are caught by the
row-level handler and the rows are skipped. -/
theorem claim_C1_counterexample :
    ([(1 : ℚ)] : List ℚ).length = ([(1 : ℚ)] : List ℚ).length ∧
    ((SIMILARITY_THRESHOLD : ℚ) : ℝ) ≤ cosineSim [(1 : ℚ)] [(1 : ℚ)] ∧
    retrieveAll sampleDigits ⟨[], [⟨none, "orphan chunk", [(1 : ℚ)]⟩]⟩ [(1 : ℚ)] = [] ∧
    retrieveAll sampleDigits ⟨[], [⟨some "x/²", "superscript chunk", [(1 : ℚ)]⟩]⟩
      [(1 : ℚ)] = [] := by
  refine ⟨rfl, ?_, by simp [retrieveAll, rowResult_eval_none],
    by simp [retrieveAll,
      rowResult_eval_badseg sampleDigits "course" "superscript chunk" "x/²" (by decide)]⟩
  rw [cosineSim_single_one]
  norm_num [SIMILARITY_THRESHOLD]

/-- C1 amended: a stored chunk contributes a result to the pre-truncation
output iff its url is present and the tie-break key computation on that
url does not raise (its trailing segment is not a digit-property string
containing an `int()`-unacceptable character), its dimensionality equals
the query's, and its cosine similarity is at least the threshold;
dimension mismatches (and every other skip) produce `none` rather than a
failure.  Proved for every digit table. -/
theorem claim_C1_similarity_filter :
    (∀ (U : DigitTable) (store : Store) (q : List ℚ) (r : Result),
      r ∈ retrieveAll U store q ↔
        ((∃ row ∈ store.forum, rowResult U "forum" q row = some r) ∨
         (∃ row ∈ store.course, rowResult U "course" q row = some r))) ∧
    (∀ (U : DigitTable) (source : String) (q : List ℚ) (row : Row),
      (∃ r, rowResult U source q row = some r) ↔
        ((∃ u, row.url = some u ∧ trailingKey U u ≠ none) ∧
          row.emb.length = q.length ∧
          ((SIMILARITY_THRESHOLD : ℚ) : ℝ) ≤ cosineSim q row.emb)) := by
  constructor
  · intro U store q r
    simp [retrieveAll, List.mem_filterMap]
  · intro U source q row
    simp only [rowResult]
    by_cases hlen : row.emb.length ≠ q.length
    · rw [if_pos hlen]
      simp [hlen]
    · rw [if_neg hlen]
      have hlen' : row.emb.length = q.length := not_not.mp hlen
      by_cases hpass : simPass (dot q row.emb) (normSq q * normSq row.emb)
      · rw [if_pos hpass]
        have hcos := (simPass_iff_cosine q row.emb).mp hpass
        cases hurl : row.url with
        | none => simp [hurl]
        | some u =>
          cases hkey : trailingKey U u with
          | none => simp [hurl, hkey]
          | some k => simp [hurl, hkey, hlen', hcos]
      · rw [if_neg hpass]
        have hncos : ¬ ((SIMILARITY_THRESHOLD : ℚ) : ℝ) ≤ cosineSim q row.emb :=
          fun hc => hpass ((simPass_iff_cosine q row.emb).mpr hc)
        simp [hncos]

/-- C2: the retrieval output is sorted by similarity descending with the
tie-break key descending among equal similarities, and is truncated to at
most `topK` entries; the default `MAX_RESULTS` is 50. -/
theorem claim_C2_ordering (U : DigitTable) (store : Store) (q : List ℚ) (k : ℕ) :
    (retrieve U store q k).length ≤ k ∧
    (retrieve U store q k).Pairwise
      (fun a b => b.simVal < a.simVal ∨ (a.simVal = b.simVal ∧ b.post ≤ a.post)) ∧
    MAX_RESULTS = 50 := by
  refine ⟨List.length_take_le _ _, ?_, rfl⟩
  have hsorted : (retrieveSorted U store q).Pairwise (fun a b => resultLE a b = true) :=
    List.sorted_mergeSort resultLE_trans resultLE_total (retrieveAll U store q)
  have hmem : ∀ r ∈ retrieveSorted U store q, 0 < r.simNum ∧ 0 < r.simDenSq := by
    intro r hr
    exact mem_retrieveAll_pos (List.mem_mergeSort.mp hr)
  have hpair : (retrieveSorted U store q).Pairwise
      (fun a b => b.simVal < a.simVal ∨ (a.simVal = b.simVal ∧ b.post ≤ a.post)) := by
    refine hsorted.imp_of_mem ?_
    intro a b ha hb hab
    rcases of_decide_eq_true hab with hlt | ⟨heq, hple⟩
    · exact Or.inl ((simSq_lt_iff (hmem b hb) (hmem a ha)).mp hlt)
    · exact Or.inr ⟨((simSq_eq_iff (hmem b hb) (hmem a ha)).mp heq).symm, hple⟩
  exact List.Pairwise.sublist (List.take_sublist _ _) hpair

/-- C10: the sort is stable, so fully tied results (equal similarity and
equal tie-break key) keep their scan order; since the forum table is
scanned before the course table, a fully tied forum result precedes a
fully tied course result; the truncation is a prefix of the sorted list
and retrieval is a pure function of the store and the query embedding. -/
theorem claim_C10_stability (U : DigitTable) (store : Store) (q : List ℚ) (a b : Result) :
    (List.Sublist [a, b] (retrieveAll U store q) → a.simVal = b.simVal → a.post = b.post →
      List.Sublist [a, b] (retrieveSorted U store q)) ∧
    (a ∈ store.forum.filterMap (rowResult U "forum" q) →
      b ∈ store.course.filterMap (rowResult U "course" q) →
      a.simVal = b.simVal → a.post = b.post →
      List.Sublist [a, b] (retrieveSorted U store q)) ∧
    (∀ k, retrieve U store q k = (retrieveSorted U store q).take k) := by
  have main : List.Sublist [a, b] (retrieveAll U store q) → a.simVal = b.simVal →
      a.post = b.post → List.Sublist [a, b] (retrieveSorted U store q) := by
    intro hsub hval hpost
    have hamem : a ∈ retrieveAll U store q := hsub.subset (by simp)
    have hbmem : b ∈ retrieveAll U store q := hsub.subset (by simp)
    have ha := mem_retrieveAll_pos hamem
    have hb := mem_retrieveAll_pos hbmem
    have hsq : simSq a = simSq b := (simSq_eq_iff ha hb).mpr hval
    have hab : resultLE a b = true :=
      decide_eq_true (Or.inr ⟨hsq.symm, le_of_eq hpost.symm⟩)
    exact List.pair_sublist_mergeSort resultLE_trans resultLE_total hab hsub
  refine ⟨main, ?_, fun k => rfl⟩
  intro haf hbc hval hpost
  have h1 : List.Sublist [a] (store.forum.filterMap (rowResult U "forum" q)) :=
    List.singleton_sublist.mpr haf
  have h2 : List.Sublist [b] (store.course.filterMap (rowResult U "course" q)) :=
    List.singleton_sublist.mpr hbc
  exact main (h1.append h2) hval hpost

/-- Witness for C10 at a concrete store: one forum chunk and one course
chunk, fully tied (similarity 1, key 7 each). -/
theorem claim_C10_witness :
    List.Sublist [(⟨"forum", "ft", "f/7", 1, 1, 7⟩ : Result), ⟨"course", "ct", "c/7", 1, 1, 7⟩]
      (retrieveAll sampleDigits
        ⟨[⟨some "f/7", "ft", [(1 : ℚ)]⟩], [⟨some "c/7", "ct", [(1 : ℚ)]⟩]⟩ [(1 : ℚ)]) ∧
    Result.simVal ⟨"forum", "ft", "f/7", 1, 1, 7⟩ =
      Result.simVal ⟨"course", "ct", "c/7", 1, 1, 7⟩ ∧
    (⟨"forum", "ft", "f/7", 1, 1, 7⟩ : Result).post =
      (⟨"course", "ct", "c/7", 1, 1, 7⟩ : Result).post ∧
    List.Sublist [(⟨"forum", "ft", "f/7", 1, 1, 7⟩ : Result), ⟨"course", "ct", "c/7", 1, 1, 7⟩]
      (retrieveSorted sampleDigits
        ⟨[⟨some "f/7", "ft", [(1 : ℚ)]⟩], [⟨some "c/7", "ct", [(1 : ℚ)]⟩]⟩ [(1 : ℚ)]) := by
  have hall : retrieveAll sampleDigits
      ⟨[⟨some "f/7", "ft", [(1 : ℚ)]⟩], [⟨some "c/7", "ct", [(1 : ℚ)]⟩]⟩ [(1 : ℚ)] =
      [⟨"forum", "ft", "f/7", 1, 1, 7⟩, ⟨"course", "ct", "c/7", 1, 1, 7⟩] := by
    simp [retrieveAll, rowResult_eval_some sampleDigits "forum" "ft" "f/7" 7 (by decide),
      rowResult_eval_some sampleDigits "course" "ct" "c/7" 7 (by decide)]
  have hsub : List.Sublist
      [(⟨"forum", "ft", "f/7", 1, 1, 7⟩ : Result), ⟨"course", "ct", "c/7", 1, 1, 7⟩]
      (retrieveAll sampleDigits
        ⟨[⟨some "f/7", "ft", [(1 : ℚ)]⟩], [⟨some "c/7", "ct", [(1 : ℚ)]⟩]⟩ [(1 : ℚ)]) := by
    rw [hall]
  exact ⟨hsub, rfl, rfl,
    (claim_C10_stability _ _ _ _ _).1 hsub rfl rfl⟩

/-- C3: with zero surviving chunks the endpoint returns the fixed refusal
answer with an empty citation list and never invokes the generative model;
with at least one surviving chunk the generative model is invoked exactly
once. -/
theorem claim_C3_refusal (U : DigitTable) (store : Store) (q : List ℚ)
    (llm : Except SynthesisError String) :
    (retrieve U store q MAX_RESULTS = [] →
      queryVirtualTA U store q llm = (Except.ok ⟨REFUSAL, []⟩, 0)) ∧
    (retrieve U store q MAX_RESULTS ≠ [] → (queryVirtualTA U store q llm).2 = 1) := by
  constructor
  · intro h
    unfold queryVirtualTA
    rw [if_pos (by rw [h]; rfl)]
  · intro h
    unfold queryVirtualTA
    rw [if_neg (by rw [List.isEmpty_iff]; exact h)]
    cases llm <;> rfl

/-- Witness for C3: an empty store yields the refusal with no model call;
a store with one surviving chunk yields exactly one model call. -/
theorem claim_C3_witness :
    (retrieve sampleDigits ⟨[], []⟩ [(1 : ℚ)] MAX_RESULTS = [] ∧
      queryVirtualTA sampleDigits ⟨[], []⟩ [(1 : ℚ)] (Except.ok "whatever") =
        (Except.ok ⟨REFUSAL, []⟩, 0)) ∧
    (retrieve sampleDigits ⟨[⟨some "u/3", "t", [(1 : ℚ)]⟩], []⟩ [(1 : ℚ)] MAX_RESULTS ≠ [] ∧
      (queryVirtualTA sampleDigits ⟨[⟨some "u/3", "t", [(1 : ℚ)]⟩], []⟩ [(1 : ℚ)]
        (Except.ok "whatever")).2 = 1) := by
  have h0 : retrieve sampleDigits ⟨[], []⟩ [(1 : ℚ)] MAX_RESULTS = [] := by
    simp [retrieve, retrieveSorted, retrieveAll]
  have hall : retrieveAll sampleDigits ⟨[⟨some "u/3", "t", [(1 : ℚ)]⟩], []⟩ [(1 : ℚ)] =
      [⟨"forum", "t", "u/3", 1, 1, 3⟩] := by
    simp [retrieveAll, rowResult_eval_some sampleDigits "forum" "t" "u/3" 3 (by decide)]
  have h1 : retrieve sampleDigits ⟨[⟨some "u/3", "t", [(1 : ℚ)]⟩], []⟩ [(1 : ℚ)] MAX_RESULTS =
      [⟨"forum", "t", "u/3", 1, 1, 3⟩] := by
    unfold retrieve retrieveSorted
    rw [hall, List.mergeSort_singleton]
    rfl
  have h1ne : retrieve sampleDigits ⟨[⟨some "u/3", "t", [(1 : ℚ)]⟩], []⟩ [(1 : ℚ)]
      MAX_RESULTS ≠ [] := by
    rw [h1]; simp
  exact ⟨⟨h0, (claim_C3_refusal _ _ _ _).1 h0⟩, ⟨h1ne, (claim_C3_refusal _ _ _ _).2 h1ne⟩⟩

/-- Counterexample to C5 as stated: a chunk with an absent (NULL) url
whose similarity passes the filter does not participate in ranking with
key 0 — it is dropped entirely; and a chunk whose trailing url segment
`²` is numeric in Python's sense (`isdigit()` true) is likewise dropped
(`int()` raises) rather than ranked. -/
theorem claim_C5_counterexample :
    ((SIMILARITY_THRESHOLD : ℚ) : ℝ) ≤ cosineSim [(1 : ℚ)] [(1 : ℚ)] ∧
    rowResult sampleDigits "course" [(1 : ℚ)] ⟨none, "course text", [(1 : ℚ)]⟩ = none ∧
    pyIsDigit sampleDigits (trailingSeg "x/²") = true ∧
    rowResult sampleDigits "course" [(1 : ℚ)] ⟨some "x/²", "sup text", [(1 : ℚ)]⟩ =
      none := by
  refine ⟨?_, rowResult_eval_none sampleDigits "course" "course text", by decide,
    rowResult_eval_badseg sampleDigits "course" "sup text" "x/²" (by decide)⟩
  rw [cosineSim_single_one]
  norm_num [SIMILARITY_THRESHOLD]

/-- C5 amended: every surviving result carries a present url on which the
key computation succeeded, and its key is that computed value; a trailing
segment that is not `isdigit()`-numeric gives key 0 and still
participates; an `isdigit()`-numeric segment is handed to `int()`, whose
value becomes the key when every character is an acceptable decimal digit
and whose `ValueError` otherwise drops the row; a chunk whose url is
absent is skipped entirely (see the counterexample).  Proved for every
digit table. -/
theorem claim_C5_tie_break_key :
    (∀ (U : DigitTable) (source : String) (q : List ℚ) (row : Row) (r : Result),
      rowResult U source q row = some r →
        ∃ u, row.url = some u ∧ r.url = u ∧ trailingKey U u = some r.post) ∧
    (∀ (U : DigitTable) (u : String), pyIsDigit U (trailingSeg u) = false →
      trailingKey U u = some 0) ∧
    (∀ (U : DigitTable) (u : String), pyIsDigit U (trailingSeg u) = true →
      trailingKey U u = pyIntDigits U (trailingSeg u)) ∧
    (∀ (U : DigitTable) (source : String) (q : List ℚ) (row : Row) (u : String),
      row.url = some u → trailingKey U u = none → rowResult U source q row = none) := by
  refine ⟨?_, ?_, ?_, ?_⟩
  · intro U source q row r h
    obtain ⟨-, -, -, -, hurl, hpost, -, -, -⟩ := rowResult_some h
    exact ⟨r.url, hurl, rfl, hpost⟩
  · intro U u h
    simp [trailingKey, h]
  · intro U u h
    simp [trailingKey, h]
  · intro U source q row u hurl hkey
    simp only [rowResult, hurl, hkey]
    split
    · rfl
    · split <;> rfl

/-- Witness for C5 at concrete inputs, covering all four paths: an ASCII
numeric trailing segment becomes the key, a non-digit segment gives
key 0, a fullwidth-digit segment gives its decimal value 12, and the
digit-but-non-decimal segment `²` drops the row. -/
theorem claim_C5_witness :
    (rowResult sampleDigits "forum" [(1 : ℚ)] ⟨some "t/12", "x", [(1 : ℚ)]⟩ =
      some ⟨"forum", "x", "t/12", 1, 1, 12⟩) ∧
    (∃ u, (Row.mk (some "t/12") "x" [(1 : ℚ)]).url = some u ∧
      (Result.mk "forum" "x" "t/12" 1 1 12).url = u ∧
      trailingKey sampleDigits u = some (Result.mk "forum" "x" "t/12" 1 1 12).post) ∧
    (pyIsDigit sampleDigits (trailingSeg "a/b") = false ∧
      trailingKey sampleDigits "a/b" = some 0) ∧
    (pyIsDigit sampleDigits (trailingSeg "x/１２") = true ∧
      trailingKey sampleDigits "x/１２" = pyIntDigits sampleDigits (trailingSeg "x/１２") ∧
      trailingKey sampleDigits "x/１２" = some 12) ∧
    (trailingKey sampleDigits "x/²" = none ∧
      rowResult sampleDigits "course" [(1 : ℚ)] ⟨some "x/²", "y", [(1 : ℚ)]⟩ = none) := by
  have h : rowResult sampleDigits "forum" [(1 : ℚ)] ⟨some "t/12", "x", [(1 : ℚ)]⟩ =
      some ⟨"forum", "x", "t/12", 1, 1, 12⟩ :=
    rowResult_eval_some sampleDigits "forum" "x" "t/12" 12 (by decide)
  refine ⟨h,
    claim_C5_tie_break_key.1 sampleDigits "forum" [(1 : ℚ)]
      (Row.mk (some "t/12") "x" [(1 : ℚ)]) (Result.mk "forum" "x" "t/12" 1 1 12) h,
    ⟨by decide, claim_C5_tie_break_key.2.1 sampleDigits "a/b" (by decide)⟩,
    ⟨by decide, claim_C5_tie_break_key.2.2.1 sampleDigits "x/１２" (by decide), by decide⟩,
    ⟨by decide, claim_C5_tie_break_key.2.2.2 sampleDigits "course" [(1 : ℚ)]
      (Row.mk (some "x/²") "y" [(1 : ℚ)]) "x/²" rfl (by decide)⟩⟩

/-! ## C4: citation parsing -/

/-- Counterexample to C4 as stated: the scan is not line-based — the
whitespace classes of the pattern may cross a line break, so the sources
portion "URL: a,\nText: x" yields a citation although no single line of it
matches the pattern. -/
theorem claim_C4_counterexample :
    parseLinks "URL: a,\nText: x".data = [⟨"a", "x"⟩] ∧
    lineCitations "URL: a,\nText: x".data = [] := by
  constructor
  · decide
  · decide

/-- C4 amended: the response is split on the first occurrence of the
literal marker `Sources:`; with no marker the whole response (stripped) is
the answer and the citation list is empty; with a marker, the part before
it (stripped) is the answer and the citations are the matches of the
pattern `URL:\s*(\S+),\s*Text:\s*(.*)` scanned left-to-right over the
whole sources portion (whitespace in a match may span line breaks), in
textual order, unmatched text being silently ignored.  On the concrete
response of the claim this yields exactly the two citations, in order. -/
theorem claim_C4_citation_parsing :
    (∀ s : String, splitMarker s.data = none →
      parseResponse s = ⟨⟨trimChars s.data⟩, []⟩) ∧
    (∀ (s : String) (pre rest : List Char), splitMarker s.data = some (pre, rest) →
      parseResponse s = ⟨⟨trimChars pre⟩, parseLinks rest⟩) ∧
    parseResponse "ans Sources:\n1. URL: http://a, Text: \"x\"\n2. URL: http://b, Text: \"y\"" =
      ⟨"ans", [⟨"http://a", "\"x\""⟩, ⟨"http://b", "\"y\""⟩]⟩ := by
  refine ⟨?_, ?_, by decide⟩
  · intro s h
    simp [parseResponse, h, parseLinks, findAll, findAllGo]
  · intro s pre rest h
    simp [parseResponse, h]

/-- Witness for C4 at concrete inputs, one without and one with the
marker. -/
theorem claim_C4_witness :
    (splitMarker "no marker here".data = none ∧
      parseResponse "no marker here" = ⟨⟨trimChars "no marker here".data⟩, []⟩) ∧
    (splitMarker "x Sources: URL: u, Text: t".data =
        some ("x ".data, " URL: u, Text: t".data) ∧
      parseResponse "x Sources: URL: u, Text: t" =
        ⟨⟨trimChars "x ".data⟩, parseLinks " URL: u, Text: t".data⟩) := by
  have h1 : splitMarker "no marker here".data = none := by decide
  have h2 : splitMarker "x Sources: URL: u, Text: t".data =
      some ("x ".data, " URL: u, Text: t".data) := by decide
  exact ⟨⟨h1, claim_C4_citation_parsing.1 "no marker here" h1⟩,
    ⟨h2, claim_C4_citation_parsing.2.1 "x Sources: URL: u, Text: t" _ _ h2⟩⟩

/-! ## C8: the embedding adapter -/

/-- Counterexample to C8 as stated: the adapter performs no count
validation — a provider returning zero vectors for one input text is
passed through as a successful result of mismatched length, not a
failure. -/
theorem claim_C8_counterexample :
    embed (fun _ => Except.ok []) ["a"] = Except.ok ([] : List (List ℚ)) ∧
    ([] : List (List ℚ)).length ≠ (["a"] : List String).length :=
  ⟨rfl, by decide⟩

/-- C8 amended: the adapter propagates a provider failure unchanged and
otherwise returns exactly the provider's vectors in the provider's order;
the output length is the provider's item count — the count is not
validated against the input, so it equals the number of input texts only
when the provider returns a matching count. -/
theorem claim_C8_embed_passthrough
    (provider : List String → Except ProviderError (List EmbeddingItem))
    (texts : List String) :
    (∀ e, provider texts = Except.error e → embed provider texts = Except.error e) ∧
    (∀ items, provider texts = Except.ok items →
      embed provider texts = Except.ok (items.map EmbeddingItem.embedding) ∧
      (items.map EmbeddingItem.embedding).length = items.length) := by
  constructor
  · intro e h
    simp [embed, h]
  · intro items h
    simp [embed, h]

/-- Witness for C8: a failing provider and a one-item provider. -/
theorem claim_C8_witness :
    (embed (fun _ => Except.error (ProviderError.requestFailed "down")) ["a"] =
      Except.error (ProviderError.requestFailed "down")) ∧
    (embed (fun _ => Except.ok [(⟨[(1 : ℚ)]⟩ : EmbeddingItem)]) ["a"] =
      Except.ok ([(⟨[(1 : ℚ)]⟩ : EmbeddingItem)].map EmbeddingItem.embedding) ∧
      ([(⟨[(1 : ℚ)]⟩ : EmbeddingItem)].map EmbeddingItem.embedding).length =
        [(⟨[(1 : ℚ)]⟩ : EmbeddingItem)].length) :=
  ⟨(claim_C8_embed_passthrough (fun _ => Except.error (ProviderError.requestFailed "down"))
      ["a"]).1 (ProviderError.requestFailed "down") rfl,
    (claim_C8_embed_passthrough (fun _ => Except.ok [(⟨[(1 : ℚ)]⟩ : EmbeddingItem)])
      ["a"]).2 [(⟨[(1 : ℚ)]⟩ : EmbeddingItem)] rfl⟩

/-! ## Adequacy of the scanner fuel -/

theorem startsList_length : ∀ {p s : List Char}, startsList p s = true → p.length ≤ s.length := by
  intro p
  induction p with
  | nil => intro s _; simp
  | cons c cs ih =>
    intro s h
    cases s with
    | nil => simp [startsList] at h
    | cons d ds =>
      simp only [startsList, Bool.and_eq_true] at h
      have := ih h.2
      simp only [List.length_cons]
      omega

theorem firstSome_some {α β : Type} {f : α → Option β} {b : β} :
    ∀ {l : List α}, firstSome f l = some b → ∃ a ∈ l, f a = some b := by
  intro l
  induction l with
  | nil => intro h; simp [firstSome] at h
  | cons a as ih =>
    intro h
    simp only [firstSome] at h
    split at h
    · next b' hfa =>
      exact ⟨a, by simp, by rw [hfa, h]⟩
    · next hfa =>
      obtain ⟨x, hx, hfx⟩ := ih h
      exact ⟨x, by simp [hx], hfx⟩

/-- A successful match consumes at least the four characters of `URL:`,
so the rest of the subject is strictly shorter. -/
theorem matchFrom_rest_lt : ∀ {s : List Char} {r : List Char × List Char × List Char},
    matchFrom s = some r → r.2.2.length < s.length := by
  intro s r h
  unfold matchFrom at h
  by_cases hu : startsList urlMarker s
  · rw [if_pos hu] at h
    have hs4 : 4 ≤ s.length := startsList_length hu
    obtain ⟨p, -, hp⟩ := firstSome_some h
    simp only [tryComma] at hp
    split at hp
    · have hr := Option.some.inj hp
      subst hr
      simp only []
      have h1 : ((s.drop urlMarker.length).dropWhile isPySpace).length ≤ s.length - 4 := by
        have hd := length_dropWhile_le isPySpace (s.drop urlMarker.length)
        rw [List.length_drop] at hd
        exact hd
      have h2 : (((s.drop urlMarker.length).dropWhile isPySpace).drop (p + 1)).length ≤
          ((s.drop urlMarker.length).dropWhile isPySpace).length := by
        rw [List.length_drop]; omega
      have h3 := length_dropWhile_le isPySpace
        (((s.drop urlMarker.length).dropWhile isPySpace).drop (p + 1))
      have h4 : (((((s.drop urlMarker.length).dropWhile isPySpace).drop
            (p + 1)).dropWhile isPySpace).drop textMarker.length).length ≤
          ((((s.drop urlMarker.length).dropWhile isPySpace).drop
            (p + 1)).dropWhile isPySpace).length := by
        rw [List.length_drop]; omega
      have h5 := length_dropWhile_le isPySpace
        (((((s.drop urlMarker.length).dropWhile isPySpace).drop
          (p + 1)).dropWhile isPySpace).drop textMarker.length)
      have h6 : ∀ (l : List Char) (k : ℕ), (l.drop k).length ≤ l.length := by
        intro l k; rw [List.length_drop]; omega
      have h7 := h6 ((((((s.drop urlMarker.length).dropWhile isPySpace).drop
          (p + 1)).dropWhile isPySpace).drop textMarker.length).dropWhile isPySpace)
        (((((((s.drop urlMarker.length).dropWhile isPySpace).drop
          (p + 1)).dropWhile isPySpace).drop textMarker.length).dropWhile
            isPySpace).takeWhile (fun c => c != '\n')).length
      omega
    · exact absurd hp (by simp)
  · rw [if_neg hu] at h
    exact absurd h (by simp)

/-- The scanner is fuel-irrelevant above the subject length: any fuel of
at least the subject length produces the same match list, so `findAll`
(fuel equal to the length) is the stable value of the loop. -/
theorem findAllGo_fuel : ∀ (n : ℕ) (s : List Char), s.length ≤ n →
    ∀ f1 f2, s.length ≤ f1 → s.length ≤ f2 → findAllGo f1 s = findAllGo f2 s := by
  intro n
  induction n with
  | zero =>
    intro s hs f1 f2 _ _
    have hnil : s = [] := List.eq_nil_of_length_eq_zero (by omega)
    subst hnil
    cases f1 <;> cases f2 <;> rfl
  | succ n ih =>
    intro s hs f1 f2 h1 h2
    cases s with
    | nil => cases f1 <;> cases f2 <;> rfl
    | cons ch cs =>
      cases f1 with
      | zero => simp at h1
      | succ f1 =>
        cases f2 with
        | zero => simp at h2
        | succ f2 =>
          simp only [findAllGo]
          cases hm : matchFrom (ch :: cs) with
          | some r =>
            obtain ⟨u, t, rest⟩ := r
            have hlt := matchFrom_rest_lt hm
            simp only [List.length_cons] at hlt hs h1 h2
            dsimp only
            rw [ih rest (by omega) f1 f2 (by omega) (by omega)]
          | none =>
            simp only [List.length_cons] at hs h1 h2
            dsimp only
            rw [ih cs (by omega) f1 f2 (by omega) (by omega)]

theorem findAll_fuel (s : List Char) (fuel : ℕ) (h : s.length ≤ fuel) :
    findAllGo fuel s = findAll s :=
  findAllGo_fuel s.length s le_rfl fuel s.length h le_rfl

/-! ## C9: course-document front matter -/

theorem flushBuffer_url {title : String} {u : Option String} {buf : List Char}
    {row : CourseRow} (h : row ∈ flushBuffer title u buf) : row.url = u := by
  unfold flushBuffer at h
  rw [List.mem_map] at h
  obtain ⟨ch, -, rfl⟩ := h
  rfl

/-- Every row the section loop produces carries the url it was given. -/
theorem sectionLoop_url (u : Option String) :
    ∀ (ls : List String) (title : String) (buf : List Char),
      ∀ row ∈ sectionLoop u title buf ls, row.url = u := by
  intro ls
  induction ls with
  | nil =>
    intro title buf row hrow
    simp only [sectionLoop] at hrow
    split at hrow
    · exact absurd hrow (List.not_mem_nil row)
    · exact flushBuffer_url hrow
  | cons l ls ih =>
    intro title buf row hrow
    simp only [sectionLoop] at hrow
    split at hrow
    · split at hrow
      · exact ih _ _ row hrow
      · rw [List.mem_append] at hrow
        rcases hrow with h | h
        · exact flushBuffer_url h
        · exact ih _ _ row h
    · exact ih _ _ row hrow

theorem scanUrl_append (u : Option String) (xs ys : List String) :
    scanUrl u (xs ++ ys) = scanUrl (scanUrl u xs) ys := by
  induction xs generalizing u with
  | nil => rfl
  | cons x xs ih =>
    simp only [List.cons_append, scanUrl, List.append_eq]
    by_cases h : pyStartsWith (pyStrip x) "original_url:"
    · rw [if_pos h, if_pos h, ih]
    · rw [if_neg h, if_neg h, ih]

theorem scanUrl_no_field : ∀ ls : List String,
    (∀ l ∈ ls, ¬ pyStartsWith (pyStrip l) "original_url:") →
    ∀ u, scanUrl u ls = u := by
  intro ls
  induction ls with
  | nil => intro _ u; rfl
  | cons l ls ih =>
    intro h u
    simp only [scanUrl]
    rw [if_neg (h l (by simp))]
    exact ih (fun x hx => h x (by simp [hx])) u

/-- The front-matter loop over a block with no closing line inside it,
followed by a closing line: record every field value and stop at the
closing line. -/
theorem fmScan_block : ∀ block : List String,
    (∀ b ∈ block, pyStrip b ≠ "---") →
    ∀ c : String, pyStrip c = "---" → ∀ (rest : List String) (u : Option String),
      fmScan u (block ++ c :: rest) = (scanUrl u block, some rest) := by
  intro block
  induction block with
  | nil =>
    intro _ c hc rest u
    have h1 : pyStartsWith "---" "original_url:" = false := by decide
    simp [fmScan, scanUrl, hc, h1]
  | cons b bs ih =>
    intro hb c hc rest u
    have hbn : pyStrip b ≠ "---" := hb b (by simp)
    simp only [List.cons_append, fmScan, scanUrl]
    by_cases hurl : pyStartsWith (pyStrip b) "original_url:"
    · rw [if_pos hurl, if_pos hurl]
      exact ih (fun x hx => hb x (by simp [hx])) c hc rest _
    · rw [if_neg hurl, if_neg hurl, if_neg hbn]
      exact ih (fun x hx => hb x (by simp [hx])) c hc rest u

/-- C9: for a document whose first line is the delimiter and whose block
is closed by a matching delimiter, nothing in the block is chunked — the
rows are computed from the remainder only; every produced row carries the
url scanned from the block (quotes stripped by `extractUrlValue`); a block
without a canonical-URL field attaches no url; a block whose last
canonical-URL field is `b` attaches `b`'s value. -/
theorem claim_C9_front_matter (l0 c : String) (block rest : List String)
    (h0 : pyStrip l0 = "---") (hc : pyStrip c = "---")
    (hb : ∀ b ∈ block, pyStrip b ≠ "---") :
    courseRows (l0 :: (block ++ c :: rest)) = sectionLoop (scanUrl none block) "" [] rest ∧
    (∀ row ∈ courseRows (l0 :: (block ++ c :: rest)), row.url = scanUrl none block) ∧
    ((∀ b ∈ block, ¬ pyStartsWith (pyStrip b) "original_url:") →
      scanUrl none block = none) ∧
    (∀ (b : String) (pre post : List String), block = pre ++ b :: post →
      pyStartsWith (pyStrip b) "original_url:" →
      (∀ x ∈ post, ¬ pyStartsWith (pyStrip x) "original_url:") →
      scanUrl none block = some (extractUrlValue b)) := by
  have hfm : frontMatter (l0 :: (block ++ c :: rest)) = (scanUrl none block, rest) := by
    simp only [frontMatter]
    rw [if_pos h0, fmScan_block block hb c hc rest none]
  have hrows : courseRows (l0 :: (block ++ c :: rest)) =
      sectionLoop (scanUrl none block) "" [] rest := by
    unfold courseRows
    rw [hfm]
  refine ⟨hrows, ?_, fun h => scanUrl_no_field block h none, ?_⟩
  · intro row hrow
    rw [hrows] at hrow
    exact sectionLoop_url _ _ _ _ row hrow
  · intro b pre post hsplit hb1 hpost
    rw [hsplit, scanUrl_append]
    simp only [scanUrl]
    rw [if_pos hb1]
    exact scanUrl_no_field post hpost _

/-- Witness for C9 at a concrete document. -/
theorem claim_C9_witness :
    pyStrip "---" = "---" ∧
    (∀ b ∈ ["original_url: \"http://u\""], pyStrip b ≠ "---") ∧
    (courseRows ("---" :: (["original_url: \"http://u\""] ++ "---" :: ["# T", "hi"])) =
        sectionLoop (scanUrl none ["original_url: \"http://u\""]) "" [] ["# T", "hi"] ∧
      (∀ row ∈ courseRows ("---" :: (["original_url: \"http://u\""] ++ "---" :: ["# T", "hi"])),
        row.url = scanUrl none ["original_url: \"http://u\""]) ∧
      ((∀ b ∈ ["original_url: \"http://u\""], ¬ pyStartsWith (pyStrip b) "original_url:") →
        scanUrl none ["original_url: \"http://u\""] = none) ∧
      (∀ (b : String) (pre post : List String),
        ["original_url: \"http://u\""] = pre ++ b :: post →
        pyStartsWith (pyStrip b) "original_url:" →
        (∀ x ∈ post, ¬ pyStartsWith (pyStrip x) "original_url:") →
        scanUrl none ["original_url: \"http://u\""] = some (extractUrlValue b))) :=
  ⟨by decide, by decide,
    claim_C9_front_matter "---" "---" ["original_url: \"http://u\""] ["# T", "hi"]
      (by decide) (by decide) (by decide)⟩

/-- Witness for C6 at a concrete input. -/
theorem claim_C6_witness :
    (1 : ℕ) < 3 ∧
    (chunkText "ab cd e".data 3 1 =
      ((List.range (numWindows "ab cd e".data.length (3 - 1))).map
        (fun i => trimChars (("ab cd e".data.drop (i * (3 - 1))).take 3))).filter
          (fun c => !c.isEmpty) ∧
    ∀ c ∈ chunkText "ab cd e".data 3 1, c ≠ [] ∧ c.length ≤ 3 ∧ trimChars c = c) :=
  ⟨by decide, claim_C6_segmenter_windows "ab cd e".data 3 1 (by decide)⟩

end TdsVta
